import Mathlib

/-!
# LifeProject — shallow embedding of the time-allocation engine and recurring items

This file embeds, in Lean 4, the parts of the LifeProject backend that the
verified claims are about:

* the data model rows (`ProjectRow`, `GoalRow`, `TaskRow`) and an in-memory
  database state `DB` standing for the relational tables
  (`app/models/project.py`);
* the exception taxonomy relevant to allocation
  (`backend/app/core/exceptions.py`): `TimeAllocationExceeded` with its
  optional structured-context fields, `ResourceNotFound`, and the plain
  `ValueError` raised by `GoalRepository.create`;
* the `TimeAllocationService` validators and summaries
  (`app/services/time_allocation.py`);
* the repository mutation paths `GoalRepository.create`, `GoalRepository.update`
  and `ProjectRepository.update` (`app/repositories/goal.py`,
  `backend/app/repositories/project.py`);
* the recurring-item model (`backend/app/models/recurring.py`):
  `calculate_next_due_date`, `Habit.update_streak`, and the repository
  completion paths `ChoreRepository.complete_chore` /
  `HabitRepository.complete_habit`.

Conventions of the embedding:

* Python floats (weekly hour budgets) are modelled as `ℚ`; comparisons keep the
  source's strictness (`>` / `<`).
* Python `date` values are modelled as proleptic-Gregorian ordinals (`ℤ`),
  matching `datetime.date.toordinal`; `timedelta(days = n)` is `+ n`.
* SQL `SELECT ... WHERE` / `func.sum` / `func.count` become list filter, sum
  and length over the table lists; `scalar_one_or_none` becomes `List.find?`;
  `result.scalar() or 0.0` is the empty-sum-is-zero convention of `List.sum`.
* A mutating repository call becomes a function `DB → ... → Except AllocError
  (DB × ...)`: the validation happens before the state is produced, so an
  error leaves the database unchanged by construction, mirroring the
  validate-then-persist ordering inside one transaction.
* Exception messages are kept as fixed strings; the Python source interpolates
  the numeric values into the message, which the claims never inspect — the
  structured `details` fields carry them.
-/

/-- Status enum (`TaskStatus` in `backend/app/models/enums.py`). -/
inductive TaskStatus where
  | NOT_STARTED
  | IN_PROGRESS
  | COMPLETED
deriving DecidableEq, Repr

/-- A row of the `project` table: the fields relevant to allocation
(`Project` in `app/models/project.py`; dates, status and color omitted — they
never feed the allocation logic). -/
structure ProjectRow where
  id : Nat
  user_id : Nat
  name : String
  weekly_hours : ℚ
deriving DecidableEq, Repr

/-- A row of the `goal` table (`Goal` in `app/models/project.py`). -/
structure GoalRow where
  id : Nat
  user_id : Nat
  project_id : Nat
  name : String
  weekly_hours : ℚ
deriving DecidableEq, Repr

/-- A row of the `task` table (`Task` in `app/models/project.py`). -/
structure TaskRow where
  id : Nat
  user_id : Nat
  goal_id : Nat
  name : String
  weekly_hours : ℚ
deriving DecidableEq, Repr

/-- The database state: the three tables of the Project → Goal → Task
hierarchy. -/
structure DB where
  projects : List ProjectRow
  goals : List GoalRow
  tasks : List TaskRow
deriving DecidableEq, Repr

/-- The structured context of `TimeAllocationExceeded`
(`backend/app/core/exceptions.py`): every keyword argument is optional, and
only the ones passed by the raise site end up in the `details` dict. -/
structure TimeAllocationExceeded where
  message : String
  project_id : Option Nat := none
  goal_id : Option Nat := none
  current_allocation : Option ℚ := none
  requested_hours : Option ℚ := none
  available_hours : Option ℚ := none
deriving DecidableEq, Repr

/-- The errors the embedded operations can raise: `TimeAllocationExceeded`,
`ResourceNotFound resource_type resource_id`
(`backend/app/core/exceptions.py`), and the bare `ValueError` that
`GoalRepository.create` raises when the parent project is missing or not
owned by the acting user. -/
inductive AllocError where
  | allocationExceeded (e : TimeAllocationExceeded)
  | resourceNotFound (resource_type : String) (resource_id : Nat)
  | valueError (msg : String)
deriving DecidableEq, Repr

/-- Whether a goal/task row with id `rid` is counted by the sum query when the
caller passed `excl` as the exclusion parameter.  The Python source guards the
extra `WHERE id != exclude` clause with `if exclude_goal_id:` — a truthiness
test — so passing `0` behaves like passing `None` (no exclusion). -/
def countedWhenExcluding (excl : Option Nat) (rid : Nat) : Bool :=
  match excl with
  | none => true
  | some e => if e = 0 then true else rid ≠ e

/-- `SELECT sum(weekly_hours) FROM goal WHERE project_id = pid [AND id != e]`
over a goal list, with `NULL` (empty) summing to `0` (`result.scalar() or
0.0`). -/
def goalsHoursSum (l : List GoalRow) (pid : Nat) (excl : Option Nat) : ℚ :=
  ((l.filter fun g => g.project_id == pid && countedWhenExcluding excl g.id).map
    fun g => g.weekly_hours).sum

/-- The same aggregate for tasks under a goal. -/
def tasksHoursSum (l : List TaskRow) (gid : Nat) (excl : Option Nat) : ℚ :=
  ((l.filter fun t => t.goal_id == gid && countedWhenExcluding excl t.id).map
    fun t => t.weekly_hours).sum

/-- Current goal hours under a project, as computed by the service. -/
def sumGoalHours (db : DB) (pid : Nat) (excl : Option Nat) : ℚ :=
  goalsHoursSum db.goals pid excl

/-- Current task hours under a goal, as computed by the service. -/
def sumTaskHours (db : DB) (gid : Nat) (excl : Option Nat) : ℚ :=
  tasksHoursSum db.tasks gid excl

/-- The sum the SPEC describes for the goal-level check:
`sum(goals.weekly_hours where project_id = X and id != exclude)` — the
exclusion applied unconditionally whenever an exclusion id is passed,
with no truthiness guard.  Kept separate from `sumGoalHours` (the code's
aggregate) so the two can be compared. -/
def sumGoalHoursSpec (db : DB) (pid : Nat) (excl : Option Nat) : ℚ :=
  ((db.goals.filter fun g => g.project_id == pid &&
      match excl with
      | none => true
      | some e => g.id != e).map fun g => g.weekly_hours).sum

/-- `TimeAllocationService.validate_goal_hours_for_project`
(`app/services/time_allocation.py`): fetch the project (unscoped by user),
raise `ResourceNotFound` if missing; sum sibling goal hours (honouring the
exclusion parameter's truthiness guard); raise `TimeAllocationExceeded` when
the projected total strictly exceeds the project's `weekly_hours`. -/
def validate_goal_hours_for_project (db : DB) (project_id : Nat)
    (new_goal_hours : ℚ) (exclude_goal_id : Option Nat) : Except AllocError Unit :=
  match db.projects.find? fun p => p.id == project_id with
  | none => .error (.resourceNotFound "Project" project_id)
  | some project =>
    let current_goal_hours := sumGoalHours db project_id exclude_goal_id
    let total_hours := current_goal_hours + new_goal_hours
    if total_hours > project.weekly_hours then
      let available_hours := project.weekly_hours - current_goal_hours
      .error (.allocationExceeded
        { message := "Goal hours would exceed project allocation"
          project_id := some project_id
          current_allocation := some current_goal_hours
          requested_hours := some new_goal_hours
          available_hours := some available_hours })
    else
      .ok ()

/-- `TimeAllocationService.validate_task_hours_for_goal`: the symmetric check
at the Task/Goal level. -/
def validate_task_hours_for_goal (db : DB) (goal_id : Nat)
    (new_task_hours : ℚ) (exclude_task_id : Option Nat) : Except AllocError Unit :=
  match db.goals.find? fun g => g.id == goal_id with
  | none => .error (.resourceNotFound "Goal" goal_id)
  | some goal =>
    let current_task_hours := sumTaskHours db goal_id exclude_task_id
    let total_hours := current_task_hours + new_task_hours
    if total_hours > goal.weekly_hours then
      let available_hours := goal.weekly_hours - current_task_hours
      .error (.allocationExceeded
        { message := "Task hours would exceed goal allocation"
          goal_id := some goal_id
          current_allocation := some current_task_hours
          requested_hours := some new_task_hours
          available_hours := some available_hours })
    else
      .ok ()

/-- `TimeAllocationService.validate_project_hours_update`: no project fetch at
all — just the goal-hours aggregate, and a failure when the new project hours
are strictly below it.  The raise passes only `current_allocation` and
`requested_hours` (no parent id, no available remainder). -/
def validate_project_hours_update (db : DB) (project_id : Nat)
    (new_project_hours : ℚ) : Except AllocError Unit :=
  let total_goal_hours := sumGoalHours db project_id none
  if new_project_hours < total_goal_hours then
    .error (.allocationExceeded
      { message := "Cannot reduce project hours below allocated goal hours"
        current_allocation := some total_goal_hours
        requested_hours := some new_project_hours })
  else
    .ok ()

/-- `TimeAllocationService.validate_goal_hours_update`: symmetric at the
Goal/Task level, same (reduced) error context. -/
def validate_goal_hours_update (db : DB) (goal_id : Nat)
    (new_goal_hours : ℚ) : Except AllocError Unit :=
  let total_task_hours := sumTaskHours db goal_id none
  if new_goal_hours < total_task_hours then
    .error (.allocationExceeded
      { message := "Cannot reduce goal hours below allocated task hours"
        current_allocation := some total_task_hours
        requested_hours := some new_goal_hours })
  else
    .ok ()

/-- The dict returned by `get_project_allocation_summary`. -/
structure ProjectAllocationSummary where
  project_id : Nat
  project_name : String
  total_hours : ℚ
  allocated_hours : ℚ
  available_hours : ℚ
  goal_count : Nat
  utilization_percentage : ℚ
deriving DecidableEq, Repr

/-- The dict returned by `get_goal_allocation_summary`. -/
structure GoalAllocationSummary where
  goal_id : Nat
  goal_name : String
  project_id : Nat
  total_hours : ℚ
  allocated_hours : ℚ
  available_hours : ℚ
  task_count : Nat
  utilization_percentage : ℚ
deriving DecidableEq, Repr

/-- `TimeAllocationService.get_project_allocation_summary`: read-only
aggregation; the utilization ratio is guarded by `if project.weekly_hours > 0
... else 0`. -/
def get_project_allocation_summary (db : DB) (project_id : Nat) :
    Except AllocError ProjectAllocationSummary :=
  match db.projects.find? fun p => p.id == project_id with
  | none => .error (.resourceNotFound "Project" project_id)
  | some project =>
    let total_goal_hours := sumGoalHours db project_id none
    let goal_count := (db.goals.filter fun g => g.project_id == project_id).length
    .ok
      { project_id := project_id
        project_name := project.name
        total_hours := project.weekly_hours
        allocated_hours := total_goal_hours
        available_hours := project.weekly_hours - total_goal_hours
        goal_count := goal_count
        utilization_percentage :=
          if project.weekly_hours > 0 then total_goal_hours / project.weekly_hours * 100 else 0 }

/-- `TimeAllocationService.get_goal_allocation_summary`: the symmetric
read-only aggregation at the Goal/Task level. -/
def get_goal_allocation_summary (db : DB) (goal_id : Nat) :
    Except AllocError GoalAllocationSummary :=
  match db.goals.find? fun g => g.id == goal_id with
  | none => .error (.resourceNotFound "Goal" goal_id)
  | some goal =>
    let total_task_hours := sumTaskHours db goal_id none
    let task_count := (db.tasks.filter fun t => t.goal_id == goal_id).length
    .ok
      { goal_id := goal_id
        goal_name := goal.name
        project_id := goal.project_id
        total_hours := goal.weekly_hours
        allocated_hours := total_task_hours
        available_hours := goal.weekly_hours - total_task_hours
        task_count := task_count
        utilization_percentage :=
          if goal.weekly_hours > 0 then total_task_hours / goal.weekly_hours * 100 else 0 }

/-- `GoalCreate` payload (`app/models/project.py`): the fields that matter to
allocation; dates and status are carried by the row but never read by the
validation logic, and are omitted from the embedding. -/
structure GoalCreate where
  name : String
  weekly_hours : ℚ
deriving DecidableEq, Repr

/-- `GoalUpdate` payload: optional fields, `none` meaning "not part of the
update payload" (`exclude_unset` in the source).  `weekly_hours` is the only
field allocation cares about; `name` stands in for the other plain fields the
`setattr` loop copies over. -/
structure GoalUpdate where
  name : Option String := none
  weekly_hours : Option ℚ := none
deriving DecidableEq, Repr

/-- `ProjectUpdate` payload, same conventions as `GoalUpdate`. -/
structure ProjectUpdate where
  name : Option String := none
  weekly_hours : Option ℚ := none
deriving DecidableEq, Repr

/-- The id the database assigns to a freshly inserted goal row
(autoincrementing primary key). -/
def nextGoalId (db : DB) : Nat := (db.goals.map fun g => g.id).foldr max 0 + 1

/-- `GoalRepository.create` (`app/repositories/goal.py`): (1) fetch the parent
project scoped to the acting user, raising `ValueError` if missing or not
owned; (2) run `validate_goal_hours_for_project` with no exclusion; (3) only
then persist the new row.  An error therefore leaves the tables untouched. -/
def GoalRepository.create (db : DB) (goal_data : GoalCreate) (project_id user_id : Nat) :
    Except AllocError (DB × GoalRow) :=
  match db.projects.find? fun p => p.id == project_id && p.user_id == user_id with
  | none => .error (.valueError "Project not found or access denied")
  | some _ =>
    match validate_goal_hours_for_project db project_id goal_data.weekly_hours none with
    | .error e => .error e
    | .ok _ =>
      let goal : GoalRow :=
        { id := nextGoalId db
          user_id := user_id
          project_id := project_id
          name := goal_data.name
          weekly_hours := goal_data.weekly_hours }
      .ok ({ db with goals := db.goals ++ [goal] }, goal)

/-- The `setattr` loop of `GoalRepository.update` applied to one goal row:
each field present in the payload overwrites the row's field (the id,
`user_id` and `project_id` are not part of `GoalUpdate` and stay). -/
def applyGoalUpdate (g : GoalRow) (u : GoalUpdate) : GoalRow :=
  { g with name := u.name.getD g.name, weekly_hours := u.weekly_hours.getD g.weekly_hours }

/-- Overwrite the goal row with primary key `gid` (ORM identity of the fetched
object). -/
def setGoalRow (l : List GoalRow) (gid : Nat) (g' : GoalRow) : List GoalRow :=
  l.map fun g => if g.id == gid then g' else g

/-- `GoalRepository.update`: (1) load the goal scoped to the user, returning
`none` (not an error) when absent; (2) when the payload carries
`weekly_hours`, validate fits-under-parent excluding self and then
still-covers-own-tasks; (3) apply the field updates and persist. -/
def GoalRepository.update (db : DB) (goal_id : Nat) (goal_data : GoalUpdate)
    (user_id : Nat) : Except AllocError (DB × Option GoalRow) :=
  match db.goals.find? fun g => g.id == goal_id && g.user_id == user_id with
  | none => .ok (db, none)
  | some goal =>
    let validated : Except AllocError Unit :=
      match goal_data.weekly_hours with
      | none => .ok ()
      | some h =>
        match validate_goal_hours_for_project db goal.project_id h (some goal_id) with
        | .error e => .error e
        | .ok _ => validate_goal_hours_update db goal_id h
    match validated with
    | .error e => .error e
    | .ok _ =>
      let goal' := applyGoalUpdate goal goal_data
      .ok ({ db with goals := setGoalRow db.goals goal_id goal' }, some goal')

/-- The `setattr` loop of `ProjectRepository.update` on one project row. -/
def applyProjectUpdate (p : ProjectRow) (u : ProjectUpdate) : ProjectRow :=
  { p with name := u.name.getD p.name, weekly_hours := u.weekly_hours.getD p.weekly_hours }

/-- Overwrite the project row with primary key `pid`. -/
def setProjectRow (l : List ProjectRow) (pid : Nat) (p' : ProjectRow) : List ProjectRow :=
  l.map fun p => if p.id == pid then p' else p

/-- `ProjectRepository.update` (`backend/app/repositories/project.py`):
(1) load the project scoped to the user, returning `none` when absent;
(2) when the payload carries `weekly_hours`, run
`validate_project_hours_update`; (3) apply the field updates and persist. -/
def ProjectRepository.update (db : DB) (project_id : Nat) (project_data : ProjectUpdate)
    (user_id : Nat) : Except AllocError (DB × Option ProjectRow) :=
  match db.projects.find? fun p => p.id == project_id && p.user_id == user_id with
  | none => .ok (db, none)
  | some project =>
    let validated : Except AllocError Unit :=
      match project_data.weekly_hours with
      | none => .ok ()
      | some h => validate_project_hours_update db project_id h
    match validated with
    | .error e => .error e
    | .ok _ =>
      let project' := applyProjectUpdate project project_data
      .ok ({ db with projects := setProjectRow db.projects project_id project' }, some project')

/-- One mutating operation of the kind claim C1 quantifies over. -/
inductive Op where
  | goalCreate (goal_data : GoalCreate) (project_id user_id : Nat)
  | goalUpdate (goal_id : Nat) (goal_data : GoalUpdate) (user_id : Nat)
  | projectUpdate (project_id : Nat) (project_data : ProjectUpdate) (user_id : Nat)
deriving DecidableEq, Repr

/-- Run one operation, keeping only the database state. -/
def applyOp (db : DB) (op : Op) : Except AllocError DB :=
  match op with
  | .goalCreate gd pid uid =>
    match GoalRepository.create db gd pid uid with
    | .error e => .error e
    | .ok (db', _) => .ok db'
  | .goalUpdate gid gd uid =>
    match GoalRepository.update db gid gd uid with
    | .error e => .error e
    | .ok (db', _) => .ok db'
  | .projectUpdate pid pd uid =>
    match ProjectRepository.update db pid pd uid with
    | .error e => .error e
    | .ok (db', _) => .ok db'

/-- Run a sequence of operations; the result is `ok` exactly when every
operation in the sequence succeeded. -/
def runOps (db : DB) (ops : List Op) : Except AllocError DB :=
  match ops with
  | [] => .ok db
  | op :: rest =>
    match applyOp db op with
    | .error e => .error e
    | .ok db' => runOps db' rest

/-- The core capacity invariant of the spec, at the Project/Goal level: the
goals under a project never add up to more than its `weekly_hours`. -/
def ProjectInv (db : DB) : Prop :=
  ∀ p ∈ db.projects, sumGoalHours db p.id none ≤ p.weekly_hours

/-- Well-formedness the relational store guarantees: primary keys are unique
per table and (being autoincremented from 1) positive. -/
def WFdb (db : DB) : Prop :=
  (db.projects.map fun p => p.id).Nodup ∧
  (db.goals.map fun g => g.id).Nodup ∧
  (∀ g ∈ db.goals, 1 ≤ g.id)

/-- `FrequencyType` (`backend/app/models/enums.py`). -/
inductive FrequencyType where
  | DAILY
  | WEEKLY
  | BIWEEKLY
  | MONTHLY
  | CUSTOM
deriving DecidableEq, Repr

/-- The recurrence fields shared by chores and habits (`RecurringItemBase` in
`backend/app/models/recurring.py`).  Dates are proleptic-Gregorian ordinals
(`ℤ`), matching `datetime.date.toordinal`. -/
structure RecurringItemBase where
  status : TaskStatus
  frequency_type : FrequencyType
  frequency_value : Nat
  next_due_date : ℤ
  last_completed_date : Option ℤ
deriving DecidableEq, Repr

/-- `RecurringItemBase.calculate_next_due_date`: the base date is
`completion_date or self.last_completed_date or date.today()` (first
non-`None`, dates being always truthy), advanced by +1/+7/+14/+30/+N days
according to `frequency_type`; MONTHLY is the fixed 30-day approximation. -/
def RecurringItemBase.calculate_next_due_date (item : RecurringItemBase)
    (completion_date : Option ℤ) (today : ℤ) : ℤ :=
  let base_date := (completion_date.or item.last_completed_date).getD today
  match item.frequency_type with
  | .DAILY => base_date + 1
  | .WEEKLY => base_date + 7
  | .BIWEEKLY => base_date + 14
  | .MONTHLY => base_date + 30
  | .CUSTOM => base_date + item.frequency_value

/-- `Chore` adds nothing to the base recurrence fields. -/
structure Chore extends RecurringItemBase
deriving DecidableEq, Repr

/-- `Habit` additionally tracks `streak_count`. -/
structure Habit extends RecurringItemBase where
  streak_count : Nat
deriving DecidableEq, Repr

/-- `Habit.update_streak`: first-ever completion sets the streak to 1;
for DAILY habits the streak continues when
`(completion_date - last_completed_date).days <= 1`; for every other
frequency it continues when the completion is on or before
`calculate_next_due_date(last_completed_date)`; otherwise it resets to 1. -/
def Habit.update_streak (habit : Habit) (completion_date : ℤ) (today : ℤ) : Habit :=
  match habit.last_completed_date with
  | none => { habit with streak_count := 1 }
  | some last =>
    match habit.frequency_type with
    | .DAILY =>
      let days_since_last := completion_date - last
      if days_since_last ≤ 1 then
        { habit with streak_count := habit.streak_count + 1 }
      else
        { habit with streak_count := 1 }
    | _ =>
      let expected_date :=
        habit.toRecurringItemBase.calculate_next_due_date (some last) today
      if completion_date ≤ expected_date then
        { habit with streak_count := habit.streak_count + 1 }
      else
        { habit with streak_count := 1 }

/-- `ChoreRepository.complete_chore` (`app/repositories/chore.py`): default
the completion date to today, record it, advance `next_due_date` from the
completion date, and reset the status to NOT_STARTED. -/
def ChoreRepository.complete_chore (chore : Chore) (completion_date : Option ℤ)
    (today : ℤ) : Chore :=
  let cd := completion_date.getD today
  { chore with
    last_completed_date := some cd
    next_due_date := chore.toRecurringItemBase.calculate_next_due_date (some cd) today
    status := TaskStatus.NOT_STARTED }

/-- `HabitRepository.complete_habit` (`backend/app/repositories/habit.py`):
like `complete_chore` but first recomputes the streak (before
`last_completed_date` is overwritten). -/
def HabitRepository.complete_habit (habit : Habit) (completion_date : Option ℤ)
    (today : ℤ) : Habit :=
  let cd := completion_date.getD today
  let habit1 := habit.update_streak cd today
  { habit1 with
    last_completed_date := some cd
    next_due_date := habit1.toRecurringItemBase.calculate_next_due_date (some cd) today
    status := TaskStatus.NOT_STARTED }

/-- Days in a month of the proleptic Gregorian calendar, as Python's
`datetime` counts them. -/
def daysInMonth (y m : Nat) : Nat :=
  if m = 2 then
    if y % 4 = 0 && (y % 100 ≠ 0 || y % 400 = 0) then 29 else 28
  else if m = 4 || m = 6 || m = 9 || m = 11 then 30
  else 31

/-- Days in the months of year `y` strictly before month `m`. -/
def daysBeforeMonth (y m : Nat) : Nat :=
  (List.range m).foldr (fun k acc => if 1 ≤ k then daysInMonth y k + acc else acc) 0

/-- `date(y, m, d).toordinal()`: day 1 is 0001-01-01, exactly as in Python's
`datetime.date`; this is the arithmetic `timedelta` addition acts on. -/
def toordinal (y m d : Nat) : ℤ :=
  ((y - 1) * 365 + (y - 1) / 4 - (y - 1) / 100 + (y - 1) / 400
    + daysBeforeMonth y m + d : Nat)

example : toordinal 2025 1 31 = toordinal 2025 1 1 + 30 := by decide

example : toordinal 1 1 1 = 1 := by decide

example : validate_project_hours_update ⟨[⟨1, 1, "p", 10⟩], [⟨1, 1, 1, "g", 3⟩], []⟩ 1 2 =
    .error (.allocationExceeded
      { message := "Cannot reduce project hours below allocated goal hours"
        current_allocation := some 3
        requested_hours := some 2 }) := by
  norm_num [validate_project_hours_update, sumGoalHours, goalsHoursSum,
    countedWhenExcluding, List.filter, List.find?]

example : validate_goal_hours_for_project ⟨[⟨1, 1, "p", 10⟩], [⟨1, 1, 1, "g", 3⟩], []⟩ 1 7
    (some 2) = .ok () := by
  norm_num [validate_goal_hours_for_project, sumGoalHours, goalsHoursSum,
    countedWhenExcluding, List.filter, List.find?]

example : validate_goal_hours_for_project ⟨[⟨1, 1, "p", 10⟩], [⟨1, 1, 1, "g", 3⟩], []⟩ 1 8
    (some 2) = .error (.allocationExceeded
      { message := "Goal hours would exceed project allocation"
        project_id := some 1
        current_allocation := some 3
        requested_hours := some 8
        available_hours := some 7 }) := by
  norm_num [validate_goal_hours_for_project, sumGoalHours, goalsHoursSum,
    countedWhenExcluding, List.filter, List.find?]

/-! ## Helper lemmas about the aggregate queries -/

theorem countedWhenExcluding_none (rid : Nat) : countedWhenExcluding none rid = true := rfl

theorem countedWhenExcluding_ne (e rid : Nat) (hrid : rid ≠ e) :
    countedWhenExcluding (some e) rid = true := by
  simp [countedWhenExcluding, hrid]

theorem countedWhenExcluding_self (e : Nat) (he : e ≠ 0) :
    countedWhenExcluding (some e) e = false := by
  simp [countedWhenExcluding, he]

theorem goalsHoursSum_nil (pid : Nat) (excl : Option Nat) :
    goalsHoursSum [] pid excl = 0 := rfl

theorem goalsHoursSum_cons (a : GoalRow) (t : List GoalRow) (pid : Nat) (excl : Option Nat) :
    goalsHoursSum (a :: t) pid excl =
      (if a.project_id == pid && countedWhenExcluding excl a.id then a.weekly_hours else 0)
        + goalsHoursSum t pid excl := by
  simp only [goalsHoursSum, List.filter_cons]
  split <;> simp_all

theorem goalsHoursSum_append_single (l : List GoalRow) (g : GoalRow) (pid : Nat) :
    goalsHoursSum (l ++ [g]) pid none =
      goalsHoursSum l pid none + (if g.project_id == pid then g.weekly_hours else 0) := by
  induction l with
  | nil => simp [goalsHoursSum_cons, goalsHoursSum_nil, countedWhenExcluding]
  | cons a t ih =>
    rw [List.cons_append, goalsHoursSum_cons, goalsHoursSum_cons, ih, add_assoc]

/-- Members of `l` with a given key are unique when the mapped keys are nodup. -/
theorem key_unique {α : Type} (key : α → Nat) (l : List α)
    (hnd : (l.map key).Nodup) (a b : α) (ha : a ∈ l) (hb : b ∈ l)
    (h : key a = key b) : a = b := by
  induction l with
  | nil => cases ha
  | cons c t ih =>
    rw [List.map_cons, List.nodup_cons] at hnd
    rcases List.mem_cons.mp ha with rfl | hat
    · rcases List.mem_cons.mp hb with rfl | hbt
      · rfl
      · exact absurd (h ▸ List.mem_map_of_mem key hbt) hnd.1
    · rcases List.mem_cons.mp hb with rfl | hbt
      · exact absurd (h ▸ List.mem_map_of_mem key hat) hnd.1
      · exact ih hnd.2 hat hbt

/-- `find?` with a key-determined predicate returns the unique member with
that key. -/
theorem find?_eq_of_key {α : Type} (key : α → Nat) (l : List α) (a : α)
    (pred : α → Bool) (hnd : (l.map key).Nodup) (ha : a ∈ l)
    (hpa : pred a = true) (hkey : ∀ x, pred x = true → key x = key a) :
    l.find? pred = some a := by
  induction l with
  | nil => cases ha
  | cons c t ih =>
    rw [List.map_cons, List.nodup_cons] at hnd
    by_cases hc : pred c = true
    · rw [List.find?_cons_of_pos _ hc]
      rcases List.mem_cons.mp ha with rfl | hat
      · rfl
      · exact absurd ((hkey c hc) ▸ List.mem_map_of_mem key hat) hnd.1
    · rw [List.find?_cons_of_neg _ hc]
      rcases List.mem_cons.mp ha with rfl | hat
      · exact absurd hpa hc
      · exact ih hnd.2 hat

/-- When no row of `l` carries the excluded id, the exclusion filter is
inert. -/
theorem goalsHoursSum_excl_inert (l : List GoalRow) (pid gid : Nat)
    (hno : ∀ x ∈ l, x.id ≠ gid) :
    goalsHoursSum l pid (some gid) = goalsHoursSum l pid none := by
  induction l with
  | nil => rfl
  | cons a t ih =>
    rw [goalsHoursSum_cons, goalsHoursSum_cons,
      countedWhenExcluding_ne gid a.id (hno a (List.mem_cons_self a t)),
      ih fun x hx => hno x (List.mem_cons_of_mem a hx), countedWhenExcluding_none]

/-- When no row of `l` carries id `gid`, overwriting that id changes
nothing. -/
theorem setGoalRow_id_inert (l : List GoalRow) (gid : Nat) (g' : GoalRow)
    (hno : ∀ x ∈ l, x.id ≠ gid) : setGoalRow l gid g' = l := by
  induction l with
  | nil => rfl
  | cons a t ih =>
    rw [setGoalRow, List.map_cons]
    have ha : (a.id == gid) = false := by
      simpa using hno a (List.mem_cons_self a t)
    rw [ha]
    simp only [Bool.false_eq_true, if_false]
    rw [show (List.map (fun g => if g.id == gid then g' else g) t) = setGoalRow t gid g' from rfl,
      ih fun x hx => hno x (List.mem_cons_of_mem a hx)]

theorem setGoalRow_cons (a : GoalRow) (t : List GoalRow) (gid : Nat) (g' : GoalRow) :
    setGoalRow (a :: t) gid g' =
      (if a.id == gid then g' else a) :: setGoalRow t gid g' := rfl

/-- Overwriting the unique row with id `g.id` rewires the project sum: the new
total is the old sum with `g` excluded plus the new row's contribution. -/
theorem goalsHoursSum_set (l : List GoalRow) (g g' : GoalRow) (pid : Nat)
    (hnd : (l.map fun x => x.id).Nodup) (hmem : g ∈ l) (hpos : 1 ≤ g.id) :
    goalsHoursSum (setGoalRow l g.id g') pid none =
      goalsHoursSum l pid (some g.id)
        + (if g'.project_id == pid then g'.weekly_hours else 0) := by
  induction l with
  | nil => cases hmem
  | cons a t ih =>
    rw [List.map_cons, List.nodup_cons] at hnd
    rw [setGoalRow_cons]
    by_cases hag : a.id = g.id
    · have hnot : ∀ x ∈ t, x.id ≠ g.id := by
        intro x hx hxg
        exact hnd.1 (hag ▸ hxg ▸ List.mem_map_of_mem (fun r => r.id) hx)
      rw [if_pos (by simpa using hag), goalsHoursSum_cons, goalsHoursSum_cons,
        setGoalRow_id_inert t g.id g' hnot, goalsHoursSum_excl_inert t pid g.id hnot,
        countedWhenExcluding_none, hag,
        countedWhenExcluding_self g.id (Nat.pos_iff_ne_zero.mp hpos)]
      simp [add_comm]
    · have hgt : g ∈ t := by
        rcases List.mem_cons.mp hmem with rfl | hgt
        · exact absurd rfl hag
        · exact hgt
      rw [if_neg (by simpa using hag), goalsHoursSum_cons, goalsHoursSum_cons,
        ih hnd.2 hgt, countedWhenExcluding_none,
        countedWhenExcluding_ne g.id a.id hag, add_assoc]

/-- Unchanged-field overwrite: replacing the unique `g.id` row by itself is a
no-op. -/
theorem setGoalRow_self (l : List GoalRow) (g : GoalRow)
    (hnd : (l.map fun x => x.id).Nodup) (hmem : g ∈ l) :
    setGoalRow l g.id g = l := by
  unfold setGoalRow
  have hcongr : ∀ x ∈ l, (if x.id == g.id then g else x) = x := by
    intro x hx
    by_cases hxg : x.id = g.id
    · rw [key_unique (fun r => r.id) l hnd x g hx hmem hxg]
      simp
    · simp [hxg]
  calc l.map (fun x => if x.id == g.id then g else x) = l.map id :=
        List.map_congr_left fun x hx => hcongr x hx
    _ = l := List.map_id l

/-- Splitting the unexcluded sum at the unique row with id `g.id`. -/
theorem goalsHoursSum_excl_add (l : List GoalRow) (g : GoalRow) (pid : Nat)
    (hnd : (l.map fun x => x.id).Nodup) (hmem : g ∈ l) (hpos : 1 ≤ g.id) :
    goalsHoursSum l pid none =
      goalsHoursSum l pid (some g.id)
        + (if g.project_id == pid then g.weekly_hours else 0) := by
  have h := goalsHoursSum_set l g g pid hnd hmem hpos
  rwa [setGoalRow_self l g hnd hmem] at h

/-! ## Characterizations of the validators -/

theorem validate_goal_hours_for_project_ok_iff (db : DB) (pid : Nat) (h : ℚ)
    (excl : Option Nat) (P : ProjectRow)
    (hfind : (db.projects.find? fun p => p.id == pid) = some P) :
    validate_goal_hours_for_project db pid h excl = .ok () ↔
      sumGoalHours db pid excl + h ≤ P.weekly_hours := by
  simp only [validate_goal_hours_for_project, hfind]
  by_cases hgt : sumGoalHours db pid excl + h > P.weekly_hours
  · simp [hgt, not_le.mpr hgt]
  · simp [hgt, not_lt.mp (by simpa using hgt)]

theorem validate_goal_hours_for_project_err_iff (db : DB) (pid : Nat) (h : ℚ)
    (excl : Option Nat) (P : ProjectRow)
    (hfind : (db.projects.find? fun p => p.id == pid) = some P) :
    (∃ e, validate_goal_hours_for_project db pid h excl =
        .error (.allocationExceeded e)) ↔
      sumGoalHours db pid excl + h > P.weekly_hours := by
  simp only [validate_goal_hours_for_project, hfind]
  by_cases hgt : sumGoalHours db pid excl + h > P.weekly_hours
  · rw [if_pos hgt]
    exact ⟨fun _ => hgt, fun _ => ⟨_, rfl⟩⟩
  · simp [hgt]

theorem validate_goal_hours_for_project_ok_elim (db : DB) (pid : Nat) (h : ℚ)
    (excl : Option Nat)
    (hok : validate_goal_hours_for_project db pid h excl = .ok ()) :
    ∃ P, (db.projects.find? fun p => p.id == pid) = some P ∧
      sumGoalHours db pid excl + h ≤ P.weekly_hours := by
  cases hfind : db.projects.find? fun p => p.id == pid with
  | none =>
    rw [validate_goal_hours_for_project, hfind] at hok
    cases hok
  | some P =>
    exact ⟨P, rfl, (validate_goal_hours_for_project_ok_iff db pid h excl P hfind).mp hok⟩

theorem validate_project_hours_update_ok_iff (db : DB) (pid : Nat) (nh : ℚ) :
    validate_project_hours_update db pid nh = .ok () ↔
      sumGoalHours db pid none ≤ nh := by
  simp only [validate_project_hours_update]
  by_cases hlt : nh < sumGoalHours db pid none
  · simp [hlt, not_le.mpr hlt]
  · simp [hlt, not_lt.mp hlt]

theorem validate_project_hours_update_err_iff (db : DB) (pid : Nat) (nh : ℚ) :
    (∃ e, validate_project_hours_update db pid nh = .error (.allocationExceeded e)) ↔
      nh < sumGoalHours db pid none := by
  simp only [validate_project_hours_update]
  by_cases hlt : nh < sumGoalHours db pid none
  · rw [if_pos hlt]
    exact ⟨fun _ => hlt, fun _ => ⟨_, rfl⟩⟩
  · simp [hlt]

/-! ## Preservation of the capacity invariant (claim C1) -/

theorem mem_le_foldr_max (l : List Nat) (x : Nat) (hx : x ∈ l) :
    x ≤ l.foldr max 0 := by
  induction l with
  | nil => cases hx
  | cons a t ih =>
    rcases List.mem_cons.mp hx with rfl | hxt
    · exact le_max_left _ _
    · exact le_trans (ih hxt) (le_max_right _ _)

theorem nextGoalId_pos (db : DB) : 1 ≤ nextGoalId db := Nat.le_add_left 1 _

theorem nextGoalId_fresh (db : DB) (g : GoalRow) (hg : g ∈ db.goals) :
    g.id ≠ nextGoalId db := by
  have hle := mem_le_foldr_max (db.goals.map fun x => x.id) g.id
    (List.mem_map_of_mem (fun x => x.id) hg)
  unfold nextGoalId
  omega

theorem goalCreate_ok_elim (db : DB) (gd : GoalCreate) (pid uid : Nat) (db' : DB)
    (h : applyOp db (.goalCreate gd pid uid) = .ok db') :
    ∃ P, (db.projects.find? fun p => p.id == pid) = some P ∧
      sumGoalHours db pid none + gd.weekly_hours ≤ P.weekly_hours ∧
      db' = { db with goals := db.goals ++
        [{ id := nextGoalId db, user_id := uid, project_id := pid,
           name := gd.name, weekly_hours := gd.weekly_hours }] } := by
  simp only [applyOp, GoalRepository.create] at h
  split at h
  · cases h
  · next heq =>
    cases h
    split at heq
    · cases heq
    · split at heq
      · cases heq
      · next hv =>
        obtain ⟨P, hfind, hle⟩ :=
          validate_goal_hours_for_project_ok_elim db pid gd.weekly_hours none hv
        cases heq
        exact ⟨P, hfind, hle, rfl⟩

theorem find?_id_eq {l : List ProjectRow} {pid : Nat} {P : ProjectRow}
    (hfind : (l.find? fun p => p.id == pid) = some P) : P.id = pid := by
  simpa using List.find?_some hfind

theorem goalCreate_preserves (db db' : DB) (gd : GoalCreate) (pid uid : Nat)
    (hwf : WFdb db) (hinv : ProjectInv db)
    (h : applyOp db (.goalCreate gd pid uid) = .ok db') :
    WFdb db' ∧ ProjectInv db' := by
  obtain ⟨P, hfind, hle, rfl⟩ := goalCreate_ok_elim db gd pid uid db' h
  obtain ⟨hndp, hndg, hpos⟩ := hwf
  have hPmem : P ∈ db.projects := List.mem_of_find?_eq_some hfind
  have hPid : P.id = pid := find?_id_eq hfind
  have hfresh : nextGoalId db ∉ db.goals.map fun x => x.id := by
    intro hmem
    obtain ⟨g, hg, hgid⟩ := List.mem_map.mp hmem
    exact nextGoalId_fresh db g hg hgid
  refine ⟨⟨hndp, ?_, ?_⟩, ?_⟩
  · rw [List.map_append]
    simp only [List.map_cons, List.map_nil]
    exact List.Nodup.append hndg (List.nodup_singleton _)
      (by simpa [List.disjoint_singleton] using hfresh)
  · intro g hg
    rcases List.mem_append.mp hg with hg | hg
    · exact hpos g hg
    · simp only [List.mem_singleton] at hg
      subst hg
      exact nextGoalId_pos db
  · intro p hp
    have hinvp := hinv p hp
    show goalsHoursSum (db.goals ++ [_]) p.id none ≤ p.weekly_hours
    rw [goalsHoursSum_append_single]
    by_cases hpp : p.id = pid
    · have hpP : p = P :=
        key_unique (fun r => r.id) db.projects hndp p P hp hPmem
          (show p.id = P.id by rw [hpp, hPid])
      subst hpP
      rw [if_pos (by simpa using hpp.symm)]
      exact hpp ▸ hle
    · rw [if_neg (by simpa using fun hc => hpp hc.symm)]
      simpa using hinvp

theorem setGoalRow_map_id (l : List GoalRow) (gid : Nat) (g' : GoalRow)
    (hg' : g'.id = gid) :
    ((setGoalRow l gid g').map fun x => x.id) = l.map fun x => x.id := by
  unfold setGoalRow
  rw [List.map_map]
  refine List.map_congr_left fun x _ => ?_
  by_cases hx : x.id = gid
  · simp [Function.comp, hx, hg']
  · simp [Function.comp, hx]

theorem setGoalRow_mem (l : List GoalRow) (gid : Nat) (g' x : GoalRow)
    (hx : x ∈ setGoalRow l gid g') : x = g' ∨ x ∈ l := by
  obtain ⟨a, ha, hax⟩ := List.mem_map.mp hx
  by_cases h : a.id = gid
  · left
    rw [← hax]
    simp [h]
  · right
    rw [← hax]
    simpa [h] using ha

theorem applyGoalUpdate_id (g : GoalRow) (u : GoalUpdate) :
    (applyGoalUpdate g u).id = g.id := rfl

theorem applyGoalUpdate_project_id (g : GoalRow) (u : GoalUpdate) :
    (applyGoalUpdate g u).project_id = g.project_id := rfl

theorem goalUpdate_ok_elim (db : DB) (gid : Nat) (gd : GoalUpdate) (uid : Nat) (db' : DB)
    (h : applyOp db (.goalUpdate gid gd uid) = .ok db') :
    db' = db ∨
    ∃ goal, (db.goals.find? fun g => g.id == gid && g.user_id == uid) = some goal ∧
      db' = { db with goals := setGoalRow db.goals gid (applyGoalUpdate goal gd) } ∧
      (gd.weekly_hours = none ∨
        ∃ nh, gd.weekly_hours = some nh ∧
          validate_goal_hours_for_project db goal.project_id nh (some gid) = .ok ()) := by
  simp only [applyOp, GoalRepository.update] at h
  split at h
  · cases h
  · next heq =>
    cases h
    split at heq
    · -- goal not found: db unchanged
      cases heq
      exact Or.inl rfl
    · next goal hfg =>
      -- goal found; analyze the validation chain
      split at heq
      · cases heq
      · next hval =>
        cases heq
        refine Or.inr ⟨goal, hfg, rfl, ?_⟩
        split at hval
        · exact Or.inl (by assumption)
        · next nh hnh =>
          split at hval
          · cases hval
          · next hv =>
            exact Or.inr ⟨nh, hnh, by rw [hv]⟩

theorem goalUpdate_preserves (db db' : DB) (gid : Nat) (gd : GoalUpdate) (uid : Nat)
    (hwf : WFdb db) (hinv : ProjectInv db)
    (h : applyOp db (.goalUpdate gid gd uid) = .ok db') :
    WFdb db' ∧ ProjectInv db' := by
  rcases goalUpdate_ok_elim db gid gd uid db' h with rfl | ⟨goal, hfg, rfl, hval⟩
  · exact ⟨hwf, hinv⟩
  obtain ⟨hndp, hndg, hpos⟩ := hwf
  have hgmem : goal ∈ db.goals := List.mem_of_find?_eq_some hfg
  have hgid : goal.id = gid := by
    have := List.find?_some hfg
    simp only [Bool.and_eq_true, beq_iff_eq] at this
    exact this.1
  have hgpos : 1 ≤ goal.id := hpos goal hgmem
  set goal' := applyGoalUpdate goal gd with hgoal'
  have hgid' : goal'.id = gid := by rw [applyGoalUpdate_id, hgid]
  have hsum : ∀ pid, goalsHoursSum (setGoalRow db.goals gid goal') pid none =
      goalsHoursSum db.goals pid (some goal.id)
        + (if goal'.project_id == pid then goal'.weekly_hours else 0) := by
    intro pid
    rw [← hgid]
    exact goalsHoursSum_set db.goals goal goal' pid hndg hgmem hgpos
  refine ⟨⟨hndp, ?_, ?_⟩, ?_⟩
  · rw [setGoalRow_map_id db.goals gid goal' hgid']
    exact hndg
  · intro g hg
    rcases setGoalRow_mem db.goals gid goal' g hg with rfl | hgl
    · rw [applyGoalUpdate_id]
      exact hgpos
    · exact hpos g hgl
  · intro p hp
    have hinvp := hinv p hp
    show goalsHoursSum (setGoalRow db.goals gid goal') p.id none ≤ p.weekly_hours
    rw [hsum p.id]
    rcases hval with hnone | ⟨nh, hnh, hv⟩
    · -- no hours in the payload: the row keeps its hours and project
      have hhours : goal'.weekly_hours = goal.weekly_hours := by
        rw [hgoal', applyGoalUpdate, hnone]
        rfl
      have hproj : goal'.project_id = goal.project_id := applyGoalUpdate_project_id goal gd
      rw [hhours, hproj, ← goalsHoursSum_excl_add db.goals goal p.id hndg hgmem hgpos]
      exact hinvp
    · -- hours nh in the payload, validated against the parent project
      have hhours : goal'.weekly_hours = nh := by
        rw [hgoal', applyGoalUpdate, hnh]
        rfl
      have hproj : goal'.project_id = goal.project_id := applyGoalUpdate_project_id goal gd
      obtain ⟨P, hfind, hle⟩ := validate_goal_hours_for_project_ok_elim db
        goal.project_id nh (some gid) hv
      by_cases hpp : p.id = goal.project_id
      · have hpP : p = P :=
          key_unique (fun r => r.id) db.projects hndp p P hp
            (List.mem_of_find?_eq_some hfind)
            (show p.id = P.id by rw [hpp, find?_id_eq hfind])
        rw [hhours, hproj, if_pos (by simpa using hpp.symm), hpp, hgid]
        exact hpP ▸ hle
      · rw [hhours, hproj, if_neg (by simpa using fun hc => hpp hc.symm), add_zero]
        have hsplit := goalsHoursSum_excl_add db.goals goal p.id hndg hgmem hgpos
        rw [if_neg (by simpa using fun hc => hpp hc.symm), add_zero] at hsplit
        rw [← hsplit]
        exact hinvp

theorem setProjectRow_map_id (l : List ProjectRow) (pid : Nat) (p' : ProjectRow)
    (hp' : p'.id = pid) :
    ((setProjectRow l pid p').map fun x => x.id) = l.map fun x => x.id := by
  unfold setProjectRow
  rw [List.map_map]
  refine List.map_congr_left fun x _ => ?_
  by_cases hx : x.id = pid
  · simp [Function.comp, hx, hp']
  · simp [Function.comp, hx]

theorem applyProjectUpdate_id (p : ProjectRow) (u : ProjectUpdate) :
    (applyProjectUpdate p u).id = p.id := rfl

theorem projectUpdate_ok_elim (db : DB) (pid : Nat) (pd : ProjectUpdate) (uid : Nat)
    (db' : DB) (h : applyOp db (.projectUpdate pid pd uid) = .ok db') :
    db' = db ∨
    ∃ project,
      (db.projects.find? fun p => p.id == pid && p.user_id == uid) = some project ∧
      db' = { db with projects := setProjectRow db.projects pid (applyProjectUpdate project pd) } ∧
      (pd.weekly_hours = none ∨
        ∃ nh, pd.weekly_hours = some nh ∧ sumGoalHours db pid none ≤ nh) := by
  simp only [applyOp, ProjectRepository.update] at h
  split at h
  · cases h
  · next heq =>
    cases h
    split at heq
    · cases heq
      exact Or.inl rfl
    · next project hfp =>
      split at heq
      · cases heq
      · next hval =>
        cases heq
        refine Or.inr ⟨project, hfp, rfl, ?_⟩
        split at hval
        · exact Or.inl (by assumption)
        · next nh hnh =>
          exact Or.inr ⟨nh, hnh,
            (validate_project_hours_update_ok_iff db pid nh).mp (by rw [hval])⟩

theorem projectUpdate_preserves (db db' : DB) (pid : Nat) (pd : ProjectUpdate) (uid : Nat)
    (hwf : WFdb db) (hinv : ProjectInv db)
    (h : applyOp db (.projectUpdate pid pd uid) = .ok db') :
    WFdb db' ∧ ProjectInv db' := by
  rcases projectUpdate_ok_elim db pid pd uid db' h with rfl | ⟨project, hfp, rfl, hval⟩
  · exact ⟨hwf, hinv⟩
  obtain ⟨hndp, hndg, hpos⟩ := hwf
  have hpmem : project ∈ db.projects := List.mem_of_find?_eq_some hfp
  have hpid : project.id = pid := by
    have := List.find?_some hfp
    simp only [Bool.and_eq_true, beq_iff_eq] at this
    exact this.1
  set project' := applyProjectUpdate project pd with hproject'
  have hpid' : project'.id = pid := by rw [applyProjectUpdate_id, hpid]
  refine ⟨⟨?_, hndg, hpos⟩, ?_⟩
  · rw [setProjectRow_map_id db.projects pid project' hpid']
    exact hndp
  · intro p hp
    obtain ⟨a, ha, hap⟩ := List.mem_map.mp hp
    show goalsHoursSum db.goals p.id none ≤ p.weekly_hours
    by_cases hapid : a.id = pid
    · -- the overwritten row: `a` is the fetched project, `p` the updated one
      have haproj : a = project :=
        key_unique (fun r => r.id) db.projects hndp a project ha hpmem
          (show a.id = project.id by rw [hapid, hpid])
      have hp' : p = project' := by
        rw [← hap]
        simp [hapid]
      subst hp'
      rcases hval with hnone | ⟨nh, hnh, hle⟩
      · have : project'.weekly_hours = project.weekly_hours := by
          rw [hproject', applyProjectUpdate, hnone]
          rfl
        rw [this, hpid']
        rw [← hpid]
        exact hinv project hpmem
      · have : project'.weekly_hours = nh := by
          rw [hproject', applyProjectUpdate, hnh]
          rfl
        rw [this, hpid']
        exact hle
    · have hpa : p = a := by
        rw [← hap]
        simp [hapid]
      subst hpa
      exact hinv _ ha

theorem applyOp_preserves (db db' : DB) (op : Op)
    (hwf : WFdb db) (hinv : ProjectInv db) (h : applyOp db op = .ok db') :
    WFdb db' ∧ ProjectInv db' := by
  cases op with
  | goalCreate gd pid uid => exact goalCreate_preserves db db' gd pid uid hwf hinv h
  | goalUpdate gid gd uid => exact goalUpdate_preserves db db' gid gd uid hwf hinv h
  | projectUpdate pid pd uid => exact projectUpdate_preserves db db' pid pd uid hwf hinv h

theorem runOps_preserves (ops : List Op) (db db' : DB)
    (hwf : WFdb db) (hinv : ProjectInv db) (hrun : runOps db ops = .ok db') :
    WFdb db' ∧ ProjectInv db' := by
  induction ops generalizing db with
  | nil =>
    cases hrun
    exact ⟨hwf, hinv⟩
  | cons op rest ih =>
    simp only [runOps] at hrun
    split at hrun
    · cases hrun
    · next db1 hop =>
      obtain ⟨hwf1, hinv1⟩ := applyOp_preserves db db1 op hwf hinv hop
      exact ih db1 hwf1 hinv1 hrun

theorem sumGoalHoursSpec_eq (db : DB) (pid : Nat) (excl : Option Nat)
    (hpos : ∀ g ∈ db.goals, 1 ≤ g.id) :
    sumGoalHoursSpec db pid excl = sumGoalHours db pid excl := by
  unfold sumGoalHoursSpec sumGoalHours goalsHoursSum
  refine congrArg List.sum (congrArg _ (List.filter_congr fun g hg => ?_))
  cases excl with
  | none => rfl
  | some e =>
    by_cases he : e = 0
    · subst he
      have hne : g.id ≠ 0 := by
        have := hpos g hg
        omega
      simp [countedWhenExcluding, hne]
    · by_cases hge : g.id = e <;> simp [countedWhenExcluding, he, hge]

theorem goalsHoursSum_no_project (l : List GoalRow) (pid : Nat) (excl : Option Nat)
    (hno : ∀ g ∈ l, g.project_id ≠ pid) : goalsHoursSum l pid excl = 0 := by
  induction l with
  | nil => rfl
  | cons a t ih =>
    rw [goalsHoursSum_cons, ih fun g hg => hno g (List.mem_cons_of_mem a hg)]
    have : (a.project_id == pid) = false := by
      simpa using hno a (List.mem_cons_self a t)
    simp [this]

/-! ## The claims -/

/-- **C1**: for every project `p`, after any sequence of
`GoalRepository.create`, `GoalRepository.update` and
`ProjectRepository.update` operations that succeeded (did not raise), the sum
of `weekly_hours` over all goals whose `project_id` is `p.id` is at most
`p.weekly_hours` — starting from any well-formed database state that
satisfies the invariant (in particular the empty one). -/
theorem C1_capacity_invariant_preserved (db db' : DB) (ops : List Op)
    (hwf : WFdb db) (hinv : ProjectInv db) (hrun : runOps db ops = .ok db') :
    ProjectInv db' :=
  (runOps_preserves ops db db' hwf hinv hrun).2

/-- Witness for C1 on a concrete run: a project with 10 weekly hours, goals
created with 3 and 7 hours (tight packing), the project then raised to 12 and
the first goal to 5; every step succeeds and the final state satisfies the
invariant. -/
theorem C1_capacity_invariant_preserved_witness :
    ProjectInv ⟨[⟨1, 1, "p", 12⟩], [⟨1, 1, 1, "g1", 5⟩, ⟨2, 1, 1, "g2", 7⟩], []⟩ :=
  C1_capacity_invariant_preserved ⟨[⟨1, 1, "p", 10⟩], [], []⟩
    ⟨[⟨1, 1, "p", 12⟩], [⟨1, 1, 1, "g1", 5⟩, ⟨2, 1, 1, "g2", 7⟩], []⟩
    [.goalCreate ⟨"g1", 3⟩ 1 1, .goalCreate ⟨"g2", 7⟩ 1 1,
     .projectUpdate 1 ⟨none, some 12⟩ 1, .goalUpdate 1 ⟨none, some 5⟩ 1]
    (by simp [WFdb])
    (by norm_num [ProjectInv, sumGoalHours, goalsHoursSum])
    (by norm_num [runOps, applyOp, GoalRepository.create, GoalRepository.update,
      ProjectRepository.update, validate_goal_hours_for_project,
      validate_goal_hours_update, validate_project_hours_update, sumGoalHours,
      sumTaskHours, goalsHoursSum, tasksHoursSum, countedWhenExcluding,
      nextGoalId, applyGoalUpdate, applyProjectUpdate, setGoalRow,
      setProjectRow, List.filter, List.find?])

/-- **C2**: for every existing project, `validate_goal_hours_for_project`
raises `TimeAllocationExceeded` exactly when the sum of sibling goal hours
under the project (excluding the goal `exclude_goal_id`) plus the candidate
hours strictly exceeds the project's `weekly_hours`; a total exactly equal to
capacity passes.  Database ids are positive, as the autoincrementing store
guarantees. -/
theorem C2_goal_validation_exact_threshold (db : DB) (pid : Nat) (candidate : ℚ)
    (excl : Option Nat) (P : ProjectRow)
    (hpos : ∀ g ∈ db.goals, 1 ≤ g.id)
    (hfind : (db.projects.find? fun p => p.id == pid) = some P) :
    (∃ e, validate_goal_hours_for_project db pid candidate excl =
        .error (.allocationExceeded e)) ↔
      sumGoalHoursSpec db pid excl + candidate > P.weekly_hours := by
  rw [sumGoalHoursSpec_eq db pid excl hpos]
  exact validate_goal_hours_for_project_err_iff db pid candidate excl P hfind

/-- Witness for C2, the claim's own scenario: project capacity 10, sibling
goal at 3 hours; updating the other goal (id 2, excluded from the sum) to 7
does not raise, updating it to 8 raises. -/
theorem C2_goal_validation_exact_threshold_witness :
    (¬ ∃ e, validate_goal_hours_for_project
        ⟨[⟨1, 1, "p", 10⟩], [⟨1, 1, 1, "a", 3⟩, ⟨2, 1, 1, "b", 4⟩], []⟩ 1 7 (some 2) =
          .error (.allocationExceeded e)) ∧
    (∃ e, validate_goal_hours_for_project
        ⟨[⟨1, 1, "p", 10⟩], [⟨1, 1, 1, "a", 3⟩, ⟨2, 1, 1, "b", 4⟩], []⟩ 1 8 (some 2) =
          .error (.allocationExceeded e)) := by
  constructor
  · intro hcontra
    have hgt := (C2_goal_validation_exact_threshold
      ⟨[⟨1, 1, "p", 10⟩], [⟨1, 1, 1, "a", 3⟩, ⟨2, 1, 1, "b", 4⟩], []⟩ 1 7 (some 2)
      ⟨1, 1, "p", 10⟩ (by simp) (by simp [List.find?])).mp hcontra
    norm_num [sumGoalHoursSpec, List.filter, bne, show ((1:Nat) == 2) = false from rfl] at hgt
  · exact (C2_goal_validation_exact_threshold
      ⟨[⟨1, 1, "p", 10⟩], [⟨1, 1, 1, "a", 3⟩, ⟨2, 1, 1, "b", 4⟩], []⟩ 1 8 (some 2)
      ⟨1, 1, "p", 10⟩ (by simp) (by simp [List.find?])).mpr
      (by norm_num [sumGoalHoursSpec, List.filter, bne, show ((1:Nat) == 2) = false from rfl])

/-- **C3**: creating a goal whose hours, added to the current sum of goal
hours under the (existing, user-owned) project, strictly exceed the project's
`weekly_hours` raises `TimeAllocationExceeded`; since the validation runs
before the persist in the same transaction, the error result carries no new
database state — the goal table is unchanged. -/
theorem C3_goal_create_overallocation_rejected (db : DB) (gd : GoalCreate)
    (pid uid : Nat) (P : ProjectRow)
    (hndp : (db.projects.map fun p => p.id).Nodup)
    (hmem : P ∈ db.projects) (hid : P.id = pid) (huser : P.user_id = uid)
    (hover : sumGoalHours db pid none + gd.weekly_hours > P.weekly_hours) :
    ∃ e, GoalRepository.create db gd pid uid = .error (.allocationExceeded e) := by
  have hfu : (db.projects.find? fun p => p.id == pid && p.user_id == uid) = some P := by
    refine find?_eq_of_key (fun r => r.id) db.projects P _ hndp hmem ?_ ?_
    · simp [hid, huser]
    · intro x hx
      simp only [Bool.and_eq_true, beq_iff_eq] at hx
      show x.id = P.id
      rw [hx.1, hid]
  have hf : (db.projects.find? fun p => p.id == pid) = some P := by
    refine find?_eq_of_key (fun r => r.id) db.projects P _ hndp hmem ?_ ?_
    · simp [hid]
    · intro x hx
      simp only [beq_iff_eq] at hx
      show x.id = P.id
      rw [hx, hid]
  obtain ⟨e, he⟩ := (validate_goal_hours_for_project_err_iff db pid
    gd.weekly_hours none P hf).mpr hover
  refine ⟨e, ?_⟩
  simp only [GoalRepository.create, hfu, he]

/-- Witness for C3: project capacity 10 with 3 + 4 hours of goals already
allocated; creating a 4-hour goal (total 11) is rejected. -/
theorem C3_goal_create_overallocation_rejected_witness :
    ∃ e, GoalRepository.create
      ⟨[⟨1, 1, "p", 10⟩], [⟨1, 1, 1, "a", 3⟩, ⟨2, 1, 1, "b", 4⟩], []⟩
      ⟨"c", 4⟩ 1 1 = .error (.allocationExceeded e) :=
  C3_goal_create_overallocation_rejected
    ⟨[⟨1, 1, "p", 10⟩], [⟨1, 1, 1, "a", 3⟩, ⟨2, 1, 1, "b", 4⟩], []⟩
    ⟨"c", 4⟩ 1 1 ⟨1, 1, "p", 10⟩ (by simp) (by simp) rfl rfl
    (by norm_num [sumGoalHours, goalsHoursSum, countedWhenExcluding, List.filter])

/-- **C4**: reducing a project's `weekly_hours` strictly below the current
sum of its goals' hours raises `TimeAllocationExceeded` from
`ProjectRepository.update` (the error result carries no new state, so the
project row is unchanged), and `validate_project_hours_update` fails exactly
when `new_hours < sum(all goal hours under project)`. -/
theorem C4_project_shrink_below_allocation_rejected (db : DB) (pid uid : Nat)
    (pd : ProjectUpdate) (P : ProjectRow) (nh : ℚ)
    (hfind : (db.projects.find? fun p => p.id == pid && p.user_id == uid) = some P)
    (hnh : pd.weekly_hours = some nh)
    (hlt : nh < sumGoalHours db pid none) :
    (∃ e, ProjectRepository.update db pid pd uid = .error (.allocationExceeded e)) ∧
    ∀ nh' : ℚ,
      (∃ e, validate_project_hours_update db pid nh' = .error (.allocationExceeded e)) ↔
        nh' < sumGoalHours db pid none := by
  refine ⟨?_, fun nh' => validate_project_hours_update_err_iff db pid nh'⟩
  obtain ⟨e, he⟩ := (validate_project_hours_update_err_iff db pid nh).mpr hlt
  refine ⟨e, ?_⟩
  simp only [ProjectRepository.update, hfind, hnh, he]

/-- Witness for C4: a project with 10 weekly hours and 3 + 4 hours of goals;
shrinking it to 5 (below the allocated 7) is rejected. -/
theorem C4_project_shrink_below_allocation_rejected_witness :
    (∃ e, ProjectRepository.update
      ⟨[⟨1, 1, "p", 10⟩], [⟨1, 1, 1, "a", 3⟩, ⟨2, 1, 1, "b", 4⟩], []⟩
      1 ⟨none, some 5⟩ 1 = .error (.allocationExceeded e)) ∧
    ∀ nh' : ℚ,
      (∃ e, validate_project_hours_update
        ⟨[⟨1, 1, "p", 10⟩], [⟨1, 1, 1, "a", 3⟩, ⟨2, 1, 1, "b", 4⟩], []⟩ 1 nh' =
          .error (.allocationExceeded e)) ↔
        nh' < sumGoalHours
          ⟨[⟨1, 1, "p", 10⟩], [⟨1, 1, 1, "a", 3⟩, ⟨2, 1, 1, "b", 4⟩], []⟩ 1 none :=
  C4_project_shrink_below_allocation_rejected
    ⟨[⟨1, 1, "p", 10⟩], [⟨1, 1, 1, "a", 3⟩, ⟨2, 1, 1, "b", 4⟩], []⟩ 1 1
    ⟨none, some 5⟩ ⟨1, 1, "p", 10⟩ 5 (by simp [List.find?]) rfl
    (by norm_num [sumGoalHours, goalsHoursSum, countedWhenExcluding, List.filter])

/-- **C5**: when a project satisfies the capacity invariant, lowering (or
keeping) a goal's hours always passes the fits-under-parent check with the
goal itself excluded — even from a state exactly at capacity. -/
theorem C5_downward_goal_update_never_rejected (db : DB) (g : GoalRow)
    (P : ProjectRow) (h : ℚ)
    (hndg : (db.goals.map fun x => x.id).Nodup)
    (hpos : ∀ x ∈ db.goals, 1 ≤ x.id)
    (hgmem : g ∈ db.goals)
    (hfind : (db.projects.find? fun p => p.id == g.project_id) = some P)
    (hinv : sumGoalHours db g.project_id none ≤ P.weekly_hours)
    (hle : h ≤ g.weekly_hours) :
    validate_goal_hours_for_project db g.project_id h (some g.id) = .ok () := by
  refine (validate_goal_hours_for_project_ok_iff db g.project_id h (some g.id)
    P hfind).mpr ?_
  have hsplit := goalsHoursSum_excl_add db.goals g g.project_id hndg hgmem
    (hpos g hgmem)
  rw [if_pos (by simp)] at hsplit
  have hsum : sumGoalHours db g.project_id (some g.id) + g.weekly_hours ≤
      P.weekly_hours := by
    rw [sumGoalHours, ← hsplit]
    exact hinv
  calc sumGoalHours db g.project_id (some g.id) + h
      ≤ sumGoalHours db g.project_id (some g.id) + g.weekly_hours := by
        exact add_le_add_left hle _
    _ ≤ P.weekly_hours := hsum

/-- Witness for C5: a project exactly at capacity (3 + 7 = 10); dropping the
7-hour goal to 6 passes the fits-under-parent check. -/
theorem C5_downward_goal_update_never_rejected_witness :
    validate_goal_hours_for_project
      ⟨[⟨1, 1, "p", 10⟩], [⟨1, 1, 1, "a", 3⟩, ⟨2, 1, 1, "b", 7⟩], []⟩ 1 6 (some 2) =
      .ok () :=
  C5_downward_goal_update_never_rejected
    ⟨[⟨1, 1, "p", 10⟩], [⟨1, 1, 1, "a", 3⟩, ⟨2, 1, 1, "b", 7⟩], []⟩
    ⟨2, 1, 1, "b", 7⟩ ⟨1, 1, "p", 10⟩ 6 (by simp) (by simp) (by simp)
    (by simp [List.find?])
    (by norm_num [sumGoalHours, goalsHoursSum, countedWhenExcluding, List.filter])
    (by norm_num)

/-- **C6**: the allocation summaries compute
`utilization_percentage = allocated / total * 100` only under the positivity
guard and return `0` when the capacity is `0`, so the division is never taken
with a zero denominator. -/
theorem C6_utilization_no_div_by_zero (db : DB) (pid gid : Nat)
    (ps : ProjectAllocationSummary) (gs : GoalAllocationSummary)
    (hp : get_project_allocation_summary db pid = .ok ps)
    (hg : get_goal_allocation_summary db gid = .ok gs) :
    ((0 < ps.total_hours →
        ps.utilization_percentage = ps.allocated_hours / ps.total_hours * 100) ∧
     (ps.total_hours = 0 → ps.utilization_percentage = 0)) ∧
    ((0 < gs.total_hours →
        gs.utilization_percentage = gs.allocated_hours / gs.total_hours * 100) ∧
     (gs.total_hours = 0 → gs.utilization_percentage = 0)) := by
  constructor
  · simp only [get_project_allocation_summary] at hp
    split at hp
    · cases hp
    · cases hp
      constructor
      · intro hpos
        simp only at hpos ⊢
        rw [if_pos hpos]
      · intro h0
        simp only at h0 ⊢
        rw [if_neg (by rw [h0]; exact lt_irrefl 0)]
  · simp only [get_goal_allocation_summary] at hg
    split at hg
    · cases hg
    · cases hg
      constructor
      · intro hpos
        simp only at hpos ⊢
        rw [if_pos hpos]
      · intro h0
        simp only at h0 ⊢
        rw [if_neg (by rw [h0]; exact lt_irrefl 0)]

/-- Witness for C6: a project with 10 weekly hours and one 4-hour goal
(utilization 40), and a 4-hour goal with one 2-hour task (utilization 50). -/
theorem C6_utilization_no_div_by_zero_witness :
    ((0 < (10 : ℚ) → (40 : ℚ) = 4 / 10 * 100) ∧ ((10 : ℚ) = 0 → (40 : ℚ) = 0)) ∧
    ((0 < (4 : ℚ) → (50 : ℚ) = 2 / 4 * 100) ∧ ((4 : ℚ) = 0 → (50 : ℚ) = 0)) :=
  C6_utilization_no_div_by_zero
    ⟨[⟨1, 1, "p", 10⟩], [⟨1, 1, 1, "g", 4⟩], [⟨1, 1, 1, "t", 2⟩]⟩ 1 1
    ⟨1, "p", 10, 4, 6, 1, 40⟩ ⟨1, "g", 1, 4, 2, 2, 1, 50⟩
    (by norm_num [get_project_allocation_summary, sumGoalHours, goalsHoursSum,
      countedWhenExcluding, List.filter, List.find?])
    (by norm_num [get_goal_allocation_summary, sumTaskHours, tasksHoursSum,
      countedWhenExcluding, List.filter, List.find?])

/-- **C7**: `update_streak` sets the streak to 1 on a first-ever completion;
otherwise, for DAILY habits it increments exactly when
`(completion_date - last_completed_date).days <= 1` and resets to 1
otherwise, and for every other frequency it increments exactly when
`completion_date <= calculate_next_due_date(last_completed_date)` and resets
to 1 otherwise. -/
theorem C7_habit_streak_update (habit : Habit) (cd today : ℤ) :
    (habit.last_completed_date = none →
      (habit.update_streak cd today).streak_count = 1) ∧
    ∀ last, habit.last_completed_date = some last →
      ((habit.frequency_type = .DAILY →
        (habit.update_streak cd today).streak_count =
          if cd - last ≤ 1 then habit.streak_count + 1 else 1) ∧
       (habit.frequency_type ≠ .DAILY →
        (habit.update_streak cd today).streak_count =
          if cd ≤ habit.toRecurringItemBase.calculate_next_due_date (some last) today
          then habit.streak_count + 1 else 1)) := by
  refine ⟨fun hnone => ?_, fun last hlast => ⟨fun hd => ?_, fun hnd => ?_⟩⟩
  · simp [Habit.update_streak, hnone]
  · simp only [Habit.update_streak, hlast, hd]
    split <;> simp
  · cases hft : habit.frequency_type with
    | DAILY => exact absurd hft hnd
    | WEEKLY =>
      simp only [Habit.update_streak, hlast, hft]
      split <;> simp
    | BIWEEKLY =>
      simp only [Habit.update_streak, hlast, hft]
      split <;> simp
    | MONTHLY =>
      simp only [Habit.update_streak, hlast, hft]
      split <;> simp
    | CUSTOM =>
      simp only [Habit.update_streak, hlast, hft]
      split <;> simp

/-- Witness for C7: a first completion gives streak 1 (via the theorem), and
the claim's daily scenario — completions on day 0, day 1 and day 5 — yields
streaks 1, 2 and 1 through `complete_habit`. -/
theorem C7_habit_streak_update_witness :
    ((Habit.update_streak ⟨⟨.NOT_STARTED, .DAILY, 1, 0, none⟩, 0⟩ 0 0).streak_count = 1) ∧
    (HabitRepository.complete_habit
      ⟨⟨.NOT_STARTED, .DAILY, 1, 1, none⟩, 0⟩ (some 0) 0).streak_count = 1 ∧
    (HabitRepository.complete_habit (HabitRepository.complete_habit
      ⟨⟨.NOT_STARTED, .DAILY, 1, 1, none⟩, 0⟩ (some 0) 0) (some 1) 0).streak_count = 2 ∧
    (HabitRepository.complete_habit (HabitRepository.complete_habit
        (HabitRepository.complete_habit
          ⟨⟨.NOT_STARTED, .DAILY, 1, 1, none⟩, 0⟩ (some 0) 0) (some 1) 0)
      (some 5) 0).streak_count = 1 :=
  ⟨(C7_habit_streak_update ⟨⟨.NOT_STARTED, .DAILY, 1, 0, none⟩, 0⟩ 0 0).1 rfl,
   by decide, by decide, by decide⟩

/-- **C8**: completing a chore or a habit on `completion_date` sets
`next_due_date` to the completion date plus 1 day for DAILY, 7 for WEEKLY,
14 for BIWEEKLY, 30 for MONTHLY and `frequency_value` days for CUSTOM, and
resets the status to NOT_STARTED. -/
theorem C8_completion_advances_due_date (chore : Chore) (habit : Habit)
    (cd today : ℤ) :
    ((ChoreRepository.complete_chore chore (some cd) today).status =
        TaskStatus.NOT_STARTED ∧
     (ChoreRepository.complete_chore chore (some cd) today).next_due_date =
       cd + (match chore.frequency_type with
             | .DAILY => 1
             | .WEEKLY => 7
             | .BIWEEKLY => 14
             | .MONTHLY => 30
             | .CUSTOM => (chore.frequency_value : ℤ))) ∧
    ((HabitRepository.complete_habit habit (some cd) today).status =
        TaskStatus.NOT_STARTED ∧
     (HabitRepository.complete_habit habit (some cd) today).next_due_date =
       cd + (match habit.frequency_type with
             | .DAILY => 1
             | .WEEKLY => 7
             | .BIWEEKLY => 14
             | .MONTHLY => 30
             | .CUSTOM => (habit.frequency_value : ℤ))) := by
  refine ⟨⟨rfl, ?_⟩, ⟨rfl, ?_⟩⟩
  · cases hft : chore.frequency_type <;>
      simp [ChoreRepository.complete_chore,
        RecurringItemBase.calculate_next_due_date, Option.or, hft]
  · cases hlc : habit.last_completed_date <;>
      cases hft : habit.frequency_type <;>
        simp [HabitRepository.complete_habit, Habit.update_streak,
          RecurringItemBase.calculate_next_due_date, Option.or, hlc, hft,
          apply_ite]

/-- Witness for C8, the claim's scenario: a CUSTOM chore with
`frequency_value = 30` completed on 2025-01-01 is next due 2025-01-31, with
its status reset. -/
theorem C8_completion_advances_due_date_witness :
    (ChoreRepository.complete_chore
        ⟨⟨.NOT_STARTED, .CUSTOM, 30, toordinal 2025 1 5, none⟩⟩
        (some (toordinal 2025 1 1)) (toordinal 2025 1 1)).next_due_date =
      toordinal 2025 1 31 ∧
    (ChoreRepository.complete_chore
        ⟨⟨.NOT_STARTED, .CUSTOM, 30, toordinal 2025 1 5, none⟩⟩
        (some (toordinal 2025 1 1)) (toordinal 2025 1 1)).status =
      TaskStatus.NOT_STARTED := by
  have h := C8_completion_advances_due_date
    ⟨⟨.NOT_STARTED, .CUSTOM, 30, toordinal 2025 1 5, none⟩⟩
    ⟨⟨.NOT_STARTED, .DAILY, 1, 0, none⟩, 0⟩
    (toordinal 2025 1 1) (toordinal 2025 1 1)
  refine ⟨?_, h.1.1⟩
  rw [h.1.2]
  decide

/-- Counterexample for **C9**: `validate_project_hours_update` does raise an
allocation violation here (goals sum to 3, the new project hours are 2), but
the error carries neither the parent project id nor the available remainder —
only the current allocation and the requested hours — so not every violation
carries the full structured context the claim requires. -/
theorem C9_structured_context_counterexample :
    validate_project_hours_update ⟨[⟨1, 1, "p", 5⟩], [⟨1, 1, 1, "g", 3⟩], []⟩ 1 2 =
      .error (.allocationExceeded
        { message := "Cannot reduce project hours below allocated goal hours"
          project_id := none
          goal_id := none
          current_allocation := some 3
          requested_hours := some 2
          available_hours := none }) := by
  norm_num [validate_project_hours_update, sumGoalHours, goalsHoursSum,
    countedWhenExcluding, List.filter]

/-- **C9 (amended)**: the child-fits-in-parent validators
(`validate_goal_hours_for_project`, `validate_task_hours_for_goal`) attach
the parent id, the current allocation, the requested hours and the available
remainder to every allocation violation; the parent-shrink validators
(`validate_project_hours_update`, `validate_goal_hours_update`) attach only
the current allocation and the requested hours, with no parent id and no
available remainder. -/
theorem C9_amended_error_context (db : DB) (pid gid : Nat) (h nh : ℚ)
    (excl : Option Nat) :
    (∀ e, validate_goal_hours_for_project db pid h excl =
        .error (.allocationExceeded e) →
      e.project_id = some pid ∧
      e.current_allocation = some (sumGoalHours db pid excl) ∧
      e.requested_hours = some h ∧ ∃ avail, e.available_hours = some avail) ∧
    (∀ e, validate_task_hours_for_goal db gid h excl =
        .error (.allocationExceeded e) →
      e.goal_id = some gid ∧
      e.current_allocation = some (sumTaskHours db gid excl) ∧
      e.requested_hours = some h ∧ ∃ avail, e.available_hours = some avail) ∧
    (∀ e, validate_project_hours_update db pid nh =
        .error (.allocationExceeded e) →
      e.current_allocation = some (sumGoalHours db pid none) ∧
      e.requested_hours = some nh ∧
      e.project_id = none ∧ e.available_hours = none) ∧
    (∀ e, validate_goal_hours_update db gid nh =
        .error (.allocationExceeded e) →
      e.current_allocation = some (sumTaskHours db gid none) ∧
      e.requested_hours = some nh ∧
      e.goal_id = none ∧ e.available_hours = none) := by
  refine ⟨fun e he => ?_, fun e he => ?_, fun e he => ?_, fun e he => ?_⟩
  · simp only [validate_goal_hours_for_project] at he
    split at he
    · cases he
    · split at he
      · cases he
        exact ⟨rfl, rfl, rfl, _, rfl⟩
      · cases he
  · simp only [validate_task_hours_for_goal] at he
    split at he
    · cases he
    · split at he
      · cases he
        exact ⟨rfl, rfl, rfl, _, rfl⟩
      · cases he
  · simp only [validate_project_hours_update] at he
    split at he
    · cases he
      exact ⟨rfl, rfl, rfl, rfl⟩
    · cases he
  · simp only [validate_goal_hours_update] at he
    split at he
    · cases he
      exact ⟨rfl, rfl, rfl, rfl⟩
    · cases he

/-- Witness for the amended C9 on a concrete database (project of 5 hours,
one 3-hour goal, goal of 4 hours with one 3-hour task). -/
theorem C9_amended_error_context_witness :
    (∀ e, validate_goal_hours_for_project
        ⟨[⟨1, 1, "p", 5⟩], [⟨1, 1, 1, "g", 3⟩], [⟨1, 1, 1, "t", 3⟩]⟩ 1 8 none =
        .error (.allocationExceeded e) →
      e.project_id = some 1 ∧
      e.current_allocation = some (sumGoalHours
        ⟨[⟨1, 1, "p", 5⟩], [⟨1, 1, 1, "g", 3⟩], [⟨1, 1, 1, "t", 3⟩]⟩ 1 none) ∧
      e.requested_hours = some 8 ∧ ∃ avail, e.available_hours = some avail) ∧
    (∀ e, validate_task_hours_for_goal
        ⟨[⟨1, 1, "p", 5⟩], [⟨1, 1, 1, "g", 3⟩], [⟨1, 1, 1, "t", 3⟩]⟩ 1 8 none =
        .error (.allocationExceeded e) →
      e.goal_id = some 1 ∧
      e.current_allocation = some (sumTaskHours
        ⟨[⟨1, 1, "p", 5⟩], [⟨1, 1, 1, "g", 3⟩], [⟨1, 1, 1, "t", 3⟩]⟩ 1 none) ∧
      e.requested_hours = some 8 ∧ ∃ avail, e.available_hours = some avail) ∧
    (∀ e, validate_project_hours_update
        ⟨[⟨1, 1, "p", 5⟩], [⟨1, 1, 1, "g", 3⟩], [⟨1, 1, 1, "t", 3⟩]⟩ 1 2 =
        .error (.allocationExceeded e) →
      e.current_allocation = some (sumGoalHours
        ⟨[⟨1, 1, "p", 5⟩], [⟨1, 1, 1, "g", 3⟩], [⟨1, 1, 1, "t", 3⟩]⟩ 1 none) ∧
      e.requested_hours = some 2 ∧
      e.project_id = none ∧ e.available_hours = none) ∧
    (∀ e, validate_goal_hours_update
        ⟨[⟨1, 1, "p", 5⟩], [⟨1, 1, 1, "g", 3⟩], [⟨1, 1, 1, "t", 3⟩]⟩ 1 2 =
        .error (.allocationExceeded e) →
      e.current_allocation = some (sumTaskHours
        ⟨[⟨1, 1, "p", 5⟩], [⟨1, 1, 1, "g", 3⟩], [⟨1, 1, 1, "t", 3⟩]⟩ 1 none) ∧
      e.requested_hours = some 2 ∧
      e.goal_id = none ∧ e.available_hours = none) :=
  C9_amended_error_context
    ⟨[⟨1, 1, "p", 5⟩], [⟨1, 1, 1, "g", 3⟩], [⟨1, 1, 1, "t", 3⟩]⟩ 1 1 8 2 none

/-- **C10**: `validate_project_hours_update` never checks that the project
exists — on a database with no such project (and, by foreign-key integrity,
no goal under it) it accepts any positive new hours without raising — while
`validate_goal_hours_for_project` raises `ResourceNotFound` for the same
missing project. -/
theorem C10_project_update_no_existence_check (db : DB) (pid : Nat) (nh : ℚ)
    (hnoproj : ∀ p ∈ db.projects, p.id ≠ pid)
    (hnogoal : ∀ g ∈ db.goals, g.project_id ≠ pid)
    (hpos : 0 < nh) :
    validate_project_hours_update db pid nh = .ok () ∧
    ∀ (ch : ℚ) (excl : Option Nat),
      validate_goal_hours_for_project db pid ch excl =
        .error (.resourceNotFound "Project" pid) := by
  have hsum : sumGoalHours db pid none = 0 :=
    goalsHoursSum_no_project db.goals pid none hnogoal
  have hfind : (db.projects.find? fun p => p.id == pid) = none := by
    rw [List.find?_eq_none]
    intro p hp
    simpa using hnoproj p hp
  constructor
  · refine (validate_project_hours_update_ok_iff db pid nh).mpr ?_
    rw [hsum]
    exact le_of_lt hpos
  · intro ch excl
    simp only [validate_goal_hours_for_project, hfind]

/-- Witness for C10: the database holds only project 1, and project 2 is
queried. -/
theorem C10_project_update_no_existence_check_witness :
    validate_project_hours_update ⟨[⟨1, 1, "p", 10⟩], [⟨1, 1, 1, "g", 3⟩], []⟩ 2 5 =
      .ok () ∧
    ∀ (ch : ℚ) (excl : Option Nat),
      validate_goal_hours_for_project ⟨[⟨1, 1, "p", 10⟩], [⟨1, 1, 1, "g", 3⟩], []⟩
        2 ch excl = .error (.resourceNotFound "Project" 2) :=
  C10_project_update_no_existence_check
    ⟨[⟨1, 1, "p", 10⟩], [⟨1, 1, 1, "g", 3⟩], []⟩ 2 5
    (by decide) (by decide) (by norm_num)
